import Mathlib

/-!
Shallow embedding of the VMM FFI surface of the `obliteration` repository.

The visible sources are `gui/core.h` (the C declarations of the Rust-side
core: profiles, the VMM lifecycle, the debug dispatcher), `src/error.hpp`
(the C++ `Error` RAII wrapper) and `src/emulator.hpp`.  The Rust
implementations behind the declarations in `gui/core.h` are not part of the
visible sources, so the behaviour of those functions is modelled from the
specification; each such definition says so in its doc comment.  The C++
`Error` wrapper is embedded directly from `src/error.hpp`.
-/

namespace Core

/-- Display resolution to report to the kernel, from `enum DisplayResolution`
in `gui/core.h` (Hd is 1280 × 720, FullHd is 1920 × 1080, UltraHd is
3840 × 2160). -/
inductive DisplayResolution where
  | Hd
  | FullHd
  | UltraHd
deriving DecidableEq

/-- Pixel dimensions documented for each `DisplayResolution` value in the
doc comments of `gui/core.h`. -/
def DisplayResolution.dims : DisplayResolution → Nat × Nat
  | .Hd => (1280, 720)
  | .FullHd => (1920, 1080)
  | .UltraHd => (3840, 2160)

/-- Log category, from `enum VmmLog` in `gui/core.h`. -/
inductive VmmLog where
  | Info
  | Warn
  | Error
deriving DecidableEq

/-- Error object managed by the Rust side (`struct RustError` in `gui/core.h`,
`struct error` in `src/error.hpp`); it carries a human-readable message
retrievable through `error_message`. -/
structure RustError where
  message : String
deriving DecidableEq

/-- Reason for a `VmmEvent.Breakpoint`, from `struct KernelStop` in
`gui/core.h`; the struct is opaque, the spec describes it as carrying the
breakpoint address/reason. -/
structure KernelStop where
  addr : Nat
deriving DecidableEq

/-- Encapsulates a debugger connection, from `struct DebugClient` in
`gui/core.h`; opaque at the FFI boundary. -/
structure DebugClient where
  sock : Int
deriving DecidableEq

/-- Contains settings to launch the kernel, from `struct Profile` in
`gui/core.h`: the spec's data model gives it an identity, a display name and
a display resolution. -/
structure Profile where
  id : String
  name : String
  resolution : DisplayResolution
deriving DecidableEq

/-- Accessor `profile_id` of `gui/core.h`: returns the profile identity. -/
def profile_id (p : Profile) : String := p.id

/-- Accessor `profile_name` of `gui/core.h`: returns the display name. -/
def profile_name (p : Profile) : String := p.name

/-- Accessor `profile_display_resolution` of `gui/core.h`: returns the
stored display resolution. -/
def profile_display_resolution (p : Profile) : DisplayResolution := p.resolution

/-- Mutator `profile_set_display_resolution` of `gui/core.h`: stores one of
the three enumerated resolutions into the profile. -/
def profile_set_display_resolution (p : Profile) (v : DisplayResolution) : Profile :=
  { p with resolution := v }

/-! ### Profile persistence

Modelled from the spec: the Rust implementations of `profile_save` and
`profile_load` are not among the visible sources.  The spec says the
persisted format is implementation-defined serialization at a given file
path that must round-trip identity, name and resolution exactly, and that
malformed data loads as an Error, never a partially-populated Profile.  We
model the file content as a sequence of cells (`Option Char`), encode each
string field terminated by a `none` separator cell, and encode the
resolution as a final tag cell. -/

/-- Serialized file cell: `some c` is a content character, `none` is a field
separator. -/
abbrev FileCell := Option Char

/-- A file system mapping paths to file contents, used to model the storage
that `profile_save` writes and `profile_load` reads. -/
abbrev FileSystem := String → Option (List FileCell)

/-- Encoding of one string field: its characters followed by a separator
cell. -/
def encodeField (s : String) : List FileCell :=
  s.data.map some ++ [none]

/-- Decoding of one string field: consume characters up to the separator
cell; fail on a missing separator. -/
def decodeField : List FileCell → Option (String × List FileCell)
  | [] => Option.none
  | Option.none :: rest => some ("", rest)
  | some c :: rest =>
    match decodeField rest with
    | some (s, r) => some (String.mk (c :: s.data), r)
    | Option.none => Option.none

/-- Tag cell for each resolution in the persisted profile format. -/
def resolutionTag : DisplayResolution → Char
  | .Hd => 'h'
  | .FullHd => 'f'
  | .UltraHd => 'u'

/-- Inverse of `resolutionTag`; unknown tags are malformed. -/
def resolutionOfTag : Char → Option DisplayResolution
  | 'h' => some .Hd
  | 'f' => some .FullHd
  | 'u' => some .UltraHd
  | _ => Option.none

/-- Serialized form of a profile: identity field, name field, resolution
tag. -/
def serializeProfile (p : Profile) : List FileCell :=
  encodeField p.id ++ encodeField p.name ++ [some (resolutionTag p.resolution)]

/-- Deserialization of a profile file; any malformed content yields `none`
(no partially-populated profile). -/
def deserializeProfile (l : List FileCell) : Option Profile :=
  match decodeField l with
  | Option.none => Option.none
  | some (i, r1) =>
    match decodeField r1 with
    | Option.none => Option.none
    | some (n, r2) =>
      match r2 with
      | [some c] =>
        match resolutionOfTag c with
        | some v => some ⟨i, n, v⟩
        | Option.none => Option.none
      | _ => Option.none

/-- Modelled from the spec: `profile_save` of `gui/core.h` (Rust
implementation not in the visible sources) serializes the profile to the
given path and returns no error on success; we model a successful write
into the file-system map. -/
def profile_save (p : Profile) (path : String) (fs : FileSystem) :
    FileSystem × Option RustError :=
  (fun q => if q = path then some (serializeProfile p) else fs q, Option.none)

/-- Modelled from the spec: `profile_load` of `gui/core.h` (Rust
implementation not in the visible sources) deserializes the file at the
given path; malformed or unreadable data is an Error, never a
partially-populated Profile. -/
def profile_load (path : String) (fs : FileSystem) : Except RustError Profile :=
  match fs path with
  | Option.none => .error ⟨"unable to read the profile file"⟩
  | some content =>
    match deserializeProfile content with
    | some p => .ok p
    | Option.none => .error ⟨"malformed profile data"⟩

/-! ### The VMM core

Modelled from the spec: the Rust implementation behind `vmm_start`,
`vmm_dispatch_debug`, `vmm_shutdown` and `vmm_shutting_down` in `gui/core.h`
is not among the visible sources; the model below follows the spec's VMM
lifecycle (section 4.1), debug-protocol state machine (section 4.2) and
concurrency/ordering guarantees (section 5). -/

/-- Debug-protocol state machine states from the spec (section 4.2):
Detached (no debugger), Attached-Running (debugger connected, guest
executing), Attached-Stopped (guest paused at a `KernelStop`, awaiting
dispatch). -/
inductive DebugState where
  | Detached
  | AttachedRunning
  | AttachedStopped (stop : KernelStop)
deriving DecidableEq

/-- Manages a virtual machine that runs the kernel, from `struct Vmm` in
`gui/core.h`; the spec says it holds the debug-protocol state machine, so
the model keeps the debug state, the shutdown-request flag and whether the
guest-execution activity has terminated. -/
structure Vmm where
  debug : DebugState
  shutdownRequested : Bool
  terminated : Bool
deriving DecidableEq

/-- Whether the guest is paused at a `KernelStop` awaiting a debug
dispatch. -/
def Vmm.isStopped (s : Vmm) : Bool :=
  match s.debug with
  | .AttachedStopped _ => true
  | _ => false

/-- Contains VMM event information, from `struct VmmEvent` in `gui/core.h`:
a tagged union with tags `VmmEvent_Error` (fatal, carries a `RustError`),
`VmmEvent_Exiting` (terminal, carries a success flag), `VmmEvent_Log`
(advisory) and `VmmEvent_Breakpoint` (pausing, carries a `KernelStop`). -/
inductive VmmEvent where
  | Error (reason : RustError)
  | Exiting (success : Bool)
  | Log (ty : VmmLog) (data : String)
  | Breakpoint (stop : KernelStop)
deriving DecidableEq

/-- Terminal events are Error and Exiting (spec section 4.1: "Error and
Exiting events are terminal for the emitting activity"). -/
def VmmEvent.isTerminal : VmmEvent → Bool
  | .Error _ => true
  | .Exiting _ => true
  | _ => false

/-- Whether an event is an Exiting event. -/
def VmmEvent.isExiting : VmmEvent → Bool
  | .Exiting _ => true
  | _ => false

/-- Whether an event is a Breakpoint event. -/
def VmmEvent.isBreakpoint : VmmEvent → Bool
  | .Breakpoint _ => true
  | _ => false

/-- Result of `vmm_dispatch_debug`, from `struct DebugResult` in
`gui/core.h`: tags `DebugResult_Ok`, `DebugResult_Disconnected` and
`DebugResult_Error` (the last carries a `RustError`). -/
inductive DebugResult where
  | Ok
  | Disconnected
  | Error (reason : RustError)
deriving DecidableEq

/-- Outcome of the debugger round-trip performed while a dispatch call
processes commands for a pending stop (spec section 4.2): the debugger
eventually requests resumption, disconnects, or a protocol-level failure
(malformed command, I/O fault) occurs. -/
inductive DispatchOutcome where
  | resume
  | disconnect
  | protoErr (e : RustError)
deriving DecidableEq

/-- Input of `vmm_start`, abstracting the kernel path, screen descriptor,
profile and optional debug client of `gui/core.h` by whether each
validation/setup step of the spec (section 4.1) succeeds: kernel-image
validation, hardware-virtualization context construction, screen render
target wiring, profile-settings application. -/
structure VmmStartInput where
  kernelOk : Bool
  hvOk : Bool
  screenOk : Bool
  profileOk : Bool
  debugger : Option DebugClient
deriving DecidableEq

/-- Whether every validation/setup step of `vmm_start` succeeds. -/
def VmmStartInput.valid (i : VmmStartInput) : Bool :=
  i.kernelOk && i.hvOk && i.screenOk && i.profileOk

/-- Modelled from the spec: `vmm_start` of `gui/core.h` (Rust implementation
not in the visible sources) validates the kernel image, constructs the
virtualization context, wires the screen, applies the profile, installs the
optional debug client, and spawns the guest; failure at any step yields an
Error and no Vmm.  With no debugger the debug state is Detached; with a
debugger we fix the documented policy that it starts Attached-Running. -/
def vmm_start (i : VmmStartInput) : Except RustError Vmm :=
  if i.kernelOk = false then .error ⟨"invalid kernel image"⟩
  else if i.hvOk = false then .error ⟨"hypervisor setup failed"⟩
  else if i.screenOk = false then .error ⟨"screen setup failed"⟩
  else if i.profileOk = false then .error ⟨"profile incompatible with screen"⟩
  else
    .ok { debug := match i.debugger with
                   | Option.none => .Detached
                   | some _ => .AttachedRunning
          shutdownRequested := false
          terminated := false }

/-- The shape `vmm_start` has at the C boundary in `gui/core.h`: it returns
a nullable `Vmm *` and writes a nullable `RustError *` through the `err`
out-parameter. -/
def vmm_start_ffi (i : VmmStartInput) : Option Vmm × Option RustError :=
  match vmm_start i with
  | .ok v => (some v, Option.none)
  | .error e => (Option.none, some e)

/-- Modelled from the spec: `vmm_dispatch_debug` of `gui/core.h` (Rust
implementation not in the visible sources).  With a pending stop it
communicates with the debugger until resumption (Ok, guest resumes
Attached-Running), disconnect (Disconnected, state machine moves to
Detached; we fix the documented policy that the guest then free-runs), or a
protocol-level failure (Error; the dispatch call completes and the VM
continues running).  Called with no pending stop (Detached, or attached but
running) it is a no-op on the state and returns an Error result — never a
crash. -/
def vmm_dispatch_debug (s : Vmm) (o : DispatchOutcome) : Vmm × DebugResult :=
  match s.debug with
  | .AttachedStopped _ =>
    match o with
    | .resume => ({ s with debug := .AttachedRunning }, .Ok)
    | .disconnect => ({ s with debug := .Detached }, .Disconnected)
    | .protoErr e => ({ s with debug := .AttachedRunning }, .Error e)
  | .Detached => (s, .Error ⟨"no debugger attached"⟩)
  | .AttachedRunning => (s, .Error ⟨"no pending kernel stop"⟩)

/-- Modelled from the spec: `vmm_shutdown` of `gui/core.h` (Rust
implementation not in the visible sources) signals the guest to stop
cooperatively; idempotent, non-blocking: it only records the request. -/
def vmm_shutdown (s : Vmm) : Vmm :=
  { s with shutdownRequested := true }

/-- Modelled from the spec: `vmm_shutting_down` of `gui/core.h` (Rust
implementation not in the visible sources) queries whether shutdown has
been requested but not yet completed. -/
def vmm_shutting_down (s : Vmm) : Bool :=
  s.shutdownRequested && !s.terminated

/-! ### The VMM as a labelled transition system

Modelled from the spec: the guest runs as a logically concurrent activity
while the embedder issues control calls; we model an interleaved run as a
list of actions, each either a guest-side occurrence or an embedder call. -/

/-- One action of a VMM run: either the guest-execution activity makes an
observable step (emits a log line, hits a breakpoint, exits, faults
fatally), or the embedder calls into the core (`vmm_dispatch_debug`,
`vmm_shutdown`). -/
inductive Act where
  | guestLog (ty : VmmLog) (msg : String)
  | guestBreak (stop : KernelStop)
  | guestExit (success : Bool)
  | guestFatal (e : RustError)
  | callDispatch (o : DispatchOutcome)
  | callShutdown
deriving DecidableEq

/-- Whether an action is a step of the guest-execution activity (as opposed
to an embedder call into the core). -/
def Act.isGuest : Act → Bool
  | .guestLog _ _ => true
  | .guestBreak _ => true
  | .guestExit _ => true
  | .guestFatal _ => true
  | _ => false

/-- Output of one step: the successor state, the event (if any) delivered
through the event callback, and the `DebugResult` returned when the action
was a dispatch call. -/
structure StepOut where
  state : Vmm
  event : Option VmmEvent
  result : Option DebugResult
deriving DecidableEq

/-- Modelled from the spec: one step of the VMM transition system.  `none`
means the action cannot occur in this state.  Guest steps require a live,
unstopped guest (the VM does not run past a pending `KernelStop` until a
dispatch resolves it — spec sections 3 and 5); a breakpoint additionally
requires an attached, running debugger; a fatal guest error cannot occur
once a cooperative shutdown has been requested, since shutdown arranges
termination observable via an Exiting event (spec sections 4.1 and 8); no
action is possible after termination. -/
def stepVmm (s : Vmm) (a : Act) : Option StepOut :=
  if s.terminated then Option.none
  else
    match a with
    | .guestLog ty msg =>
      if s.isStopped then Option.none
      else some ⟨s, some (.Log ty msg), Option.none⟩
    | .guestBreak stop =>
      if s.debug = .AttachedRunning then
        some ⟨{ s with debug := .AttachedStopped stop },
              some (.Breakpoint stop), Option.none⟩
      else Option.none
    | .guestExit ok =>
      if s.isStopped then Option.none
      else some ⟨{ s with terminated := true }, some (.Exiting ok), Option.none⟩
    | .guestFatal e =>
      if s.isStopped || s.shutdownRequested then Option.none
      else some ⟨{ s with terminated := true }, some (.Error e), Option.none⟩
    | .callDispatch o =>
      let r := vmm_dispatch_debug s o
      some ⟨r.1, Option.none, some r.2⟩
    | .callShutdown => some ⟨vmm_shutdown s, Option.none, Option.none⟩

/-- One entry of a run history: the state before the action, the action, and
the step output. -/
structure HistEntry where
  pre : Vmm
  act : Act
  out : StepOut
deriving DecidableEq

/-- Runs a list of actions from a state, recording the full history; `none`
when some action is impossible at its point. -/
def runVmm (s : Vmm) : List Act → Option (Vmm × List HistEntry)
  | [] => some (s, [])
  | a :: rest =>
    match stepVmm s a with
    | Option.none => Option.none
    | some o =>
      match runVmm o.state rest with
      | Option.none => Option.none
      | some (s2, h) => some (s2, ⟨s, a, o⟩ :: h)

/-- Events delivered through the callback during a history, in emission
order. -/
def histEvents (h : List HistEntry) : List VmmEvent :=
  h.filterMap fun x => x.out.event

/-- Whether a history entry delivered a Breakpoint event. -/
def HistEntry.emitsBreakpoint (x : HistEntry) : Bool :=
  match x.out.event with
  | some (.Breakpoint _) => true
  | _ => false

/-- Whether a history entry is a dispatch call that resolved a pending stop
(a dispatch performed while the guest was stopped). -/
def HistEntry.resolvesStop (x : HistEntry) : Bool :=
  x.pre.isStopped &&
    match x.act with
    | .callDispatch _ => true
    | _ => false

/-! ### The C++ `Error` wrapper of `src/error.hpp`

This class is among the visible sources; the embedding below follows the
code.  Foreign calls the wrapper makes (`error_free`, `error_message`,
`std::free`) are recorded in an explicit call log so that "freed exactly
once" is a statement about the log. -/

/-- The foreign call `error_message` of `src/error.hpp`: the Rust side
returns a freshly allocated C string with the error's message. -/
def error_message (e : RustError) : String := e.message

/-- One foreign call made by the C++ `Error` wrapper. -/
inductive FfiCall where
  | errorFreeCall (o : RustError)
  | errorMessageCall (o : RustError)
  | stdFreeCall (s : String)
deriving DecidableEq

/-- Whether a call is `error_free` on the given object. -/
def FfiCall.isErrorFreeOn (o : RustError) : FfiCall → Bool
  | .errorFreeCall x => x = o
  | _ => false

/-- Whether a call is any `error_free`. -/
def FfiCall.isErrorFree : FfiCall → Bool
  | .errorFreeCall _ => true
  | _ => false

/-- Whether a call is `std::free` on the given C string. -/
def FfiCall.isStdFreeOn (s : String) : FfiCall → Bool
  | .stdFreeCall x => x = s
  | _ => false

/-- Whether a call is `error_message`. -/
def FfiCall.isErrorMessage : FfiCall → Bool
  | .errorMessageCall _ => true
  | _ => false

namespace Cpp

/-- The C++ `Error` class of `src/error.hpp`: it holds `error *m_obj`, null
or pointing to a Rust error object.  Copy construction and copy assignment
are `= delete`d in the source (lines 18 and 27), so no operation that
duplicates ownership exists and none is modelled. -/
structure Error where
  m_obj : Option RustError
deriving DecidableEq

/-- The default constructor `Error() : m_obj(nullptr)`. -/
def Error.default : Error := ⟨Option.none⟩

/-- The explicit constructor `Error(error *obj) : m_obj(obj)` receiving a
non-null object. -/
def Error.fromObj (o : RustError) : Error := ⟨some o⟩

/-- The destructor `~Error()`: calls `error_free(m_obj)` when `m_obj` is
non-null, otherwise does nothing; returns the log of foreign calls made. -/
def Error.destructor (e : Error) : List FfiCall :=
  match e.m_obj with
  | some o => [.errorFreeCall o]
  | Option.none => []

/-- The conversion `operator bool`: `m_obj != nullptr`. -/
def Error.toBool (e : Error) : Bool := e.m_obj.isSome

/-- The method `Error::message` of `src/error.hpp`: calls
`error_message(m_obj)`, copies the returned C string into a `QString`,
calls `std::free` on the C string, and returns the copy; the result is the
returned string together with the log of foreign calls made.  The source
comment requires the caller to check that the error has a value first;
a null `m_obj` is outside the contract and modelled as `none`. -/
def Error.message (e : Error) : Option (String × List FfiCall) :=
  e.m_obj.map fun o =>
    let msg := error_message o
    (msg, [.errorMessageCall o, .stdFreeCall msg])

end Cpp

/-! ### Helper lemmas -/

/-- Decoding inverts the field encoding, leaving the remaining cells. -/
theorem decodeField_encode (s : String) (rest : List FileCell) :
    decodeField (s.data.map some ++ (Option.none :: rest)) = some (s, rest) := by
  have key : ∀ l : List Char,
      decodeField (l.map some ++ (Option.none :: rest)) = some (String.mk l, rest) := by
    intro l
    induction l with
    | nil => rfl
    | cons c cs ih => simp [decodeField, ih]
  rw [key s.data]

/-- The resolution tag decodes back to the resolution it encodes. -/
theorem resolutionOfTag_resolutionTag (r : DisplayResolution) :
    resolutionOfTag (resolutionTag r) = some r := by
  cases r <;> rfl

/-- Deserialization inverts serialization on every profile. -/
theorem deserialize_serialize (p : Profile) :
    deserializeProfile (serializeProfile p) = some p := by
  rcases p with ⟨i, n, r⟩
  have h1 : serializeProfile ⟨i, n, r⟩ =
      i.data.map some ++ (Option.none :: (n.data.map some ++
        (Option.none :: [some (resolutionTag r)]))) := by
    simp [serializeProfile, encodeField]
  rw [deserializeProfile, h1]
  simp [decodeField_encode, resolutionOfTag_resolutionTag]

/-- Fields of the state returned by a dispatch call: the termination and
shutdown-request flags are untouched. -/
theorem dispatch_preserves_flags (s : Vmm) (oc : DispatchOutcome) :
    (vmm_dispatch_debug s oc).1.terminated = s.terminated ∧
    (vmm_dispatch_debug s oc).1.shutdownRequested = s.shutdownRequested := by
  rcases s with ⟨d, sr, t⟩
  cases d <;> cases oc <;> simp [vmm_dispatch_debug]

/-- A dispatch call with no pending stop leaves the state unchanged. -/
theorem dispatch_unstopped_id (s : Vmm) (oc : DispatchOutcome)
    (hs : s.isStopped = false) : (vmm_dispatch_debug s oc).1 = s := by
  rcases s with ⟨d, sr, t⟩
  cases d <;> cases oc <;> simp_all [vmm_dispatch_debug, Vmm.isStopped]

/-- A dispatch call on a pending stop resolves it: the successor state is
no longer stopped. -/
theorem dispatch_stopped_resolves (s : Vmm) (oc : DispatchOutcome)
    (hs : s.isStopped = true) : (vmm_dispatch_debug s oc).1.isStopped = false := by
  rcases s with ⟨d, sr, t⟩
  cases d <;> cases oc <;> simp_all [vmm_dispatch_debug, Vmm.isStopped]

/-- Inversion of one VMM step: the source state is live, and the action is
one of the six shapes with its guard and its exact output. -/
theorem stepVmm_inv {s : Vmm} {a : Act} {o : StepOut}
    (h : stepVmm s a = some o) :
    s.terminated = false ∧
    ((∃ ty msg, a = .guestLog ty msg ∧ s.isStopped = false ∧
        o = ⟨s, some (.Log ty msg), Option.none⟩) ∨
     (∃ stop, a = .guestBreak stop ∧ s.debug = .AttachedRunning ∧
        o = ⟨{ s with debug := .AttachedStopped stop },
             some (.Breakpoint stop), Option.none⟩) ∨
     (∃ ok, a = .guestExit ok ∧ s.isStopped = false ∧
        o = ⟨{ s with terminated := true }, some (.Exiting ok), Option.none⟩) ∨
     (∃ e, a = .guestFatal e ∧ s.isStopped = false ∧ s.shutdownRequested = false ∧
        o = ⟨{ s with terminated := true }, some (.Error e), Option.none⟩) ∨
     (∃ oc, a = .callDispatch oc ∧
        o = ⟨(vmm_dispatch_debug s oc).1, Option.none,
             some (vmm_dispatch_debug s oc).2⟩) ∨
     (a = .callShutdown ∧ o = ⟨vmm_shutdown s, Option.none, Option.none⟩)) := by
  rcases s with ⟨d, sr, t⟩
  by_cases ht : t = true
  · simp [stepVmm, ht] at h
  · rw [Bool.not_eq_true] at ht
    subst ht
    refine ⟨rfl, ?_⟩
    cases a with
    | guestLog ty msg =>
      by_cases hs : Vmm.isStopped ⟨d, sr, false⟩ = true
      · simp [stepVmm, hs] at h
      · rw [Bool.not_eq_true] at hs
        simp [stepVmm, hs] at h
        exact Or.inl ⟨ty, msg, rfl, hs, h.symm⟩
    | guestBreak stop =>
      by_cases hd : d = .AttachedRunning
      · simp [stepVmm, hd] at h
        exact Or.inr (Or.inl ⟨stop, rfl, by simpa using hd, h.symm⟩)
      · simp [stepVmm, hd] at h
    | guestExit ok =>
      by_cases hs : Vmm.isStopped ⟨d, sr, false⟩ = true
      · simp [stepVmm, hs] at h
      · rw [Bool.not_eq_true] at hs
        simp [stepVmm, hs] at h
        exact Or.inr (Or.inr (Or.inl ⟨ok, rfl, hs, h.symm⟩))
    | guestFatal e =>
      by_cases hs : Vmm.isStopped ⟨d, sr, false⟩ = true
      · simp [stepVmm, hs] at h
      · by_cases hr : sr = true
        · simp [stepVmm, hs, hr] at h
        · rw [Bool.not_eq_true] at hs
          rw [Bool.not_eq_true] at hr
          subst hr
          simp [stepVmm, hs] at h
          exact Or.inr (Or.inr (Or.inr (Or.inl ⟨e, rfl, hs, rfl, h.symm⟩)))
    | callDispatch oc =>
      simp [stepVmm] at h
      exact Or.inr (Or.inr (Or.inr (Or.inr (Or.inl ⟨oc, rfl, h.symm⟩))))
    | callShutdown =>
      simp [stepVmm] at h
      exact Or.inr (Or.inr (Or.inr (Or.inr (Or.inr ⟨rfl, h.symm⟩))))

/-- A step delivers a terminal event exactly when it terminates the guest
activity. -/
theorem step_terminal_iff {s : Vmm} {a : Act} {o : StepOut}
    (h : stepVmm s a = some o) :
    (∃ e, o.event = some e ∧ e.isTerminal = true) ↔ o.state.terminated = true := by
  obtain ⟨ht, hc⟩ := stepVmm_inv h
  rcases hc with ⟨ty, msg, rfl, hs, rfl⟩ | ⟨stop, rfl, hd, rfl⟩ | ⟨ok, rfl, hs, rfl⟩ |
    ⟨e, rfl, hs, hr, rfl⟩ | ⟨oc, rfl, rfl⟩ | ⟨rfl, rfl⟩
  · simp [VmmEvent.isTerminal, ht]
  · simp [VmmEvent.isTerminal, ht]
  · simp [VmmEvent.isTerminal]
  · simp [VmmEvent.isTerminal]
  · simp [(dispatch_preserves_flags s oc).1, ht]
  · simp [vmm_shutdown, ht]

/-- A step from a stopped state is an embedder call, never a guest step. -/
theorem step_stopped_not_guest {s : Vmm} {a : Act} {o : StepOut}
    (h : stepVmm s a = some o) (hs : s.isStopped = true) :
    a.isGuest = false := by
  obtain ⟨ht, hc⟩ := stepVmm_inv h
  rcases hc with ⟨ty, msg, rfl, hs2, rfl⟩ | ⟨stop, rfl, hd, rfl⟩ | ⟨ok, rfl, hs2, rfl⟩ |
    ⟨e, rfl, hs2, hr, rfl⟩ | ⟨oc, rfl, rfl⟩ | ⟨rfl, rfl⟩ <;>
    simp_all [Act.isGuest, Vmm.isStopped]

/-- A step never clears an already-requested shutdown. -/
theorem step_shutdown_mono {s : Vmm} {a : Act} {o : StepOut}
    (h : stepVmm s a = some o) (hr : s.shutdownRequested = true) :
    o.state.shutdownRequested = true := by
  obtain ⟨ht, hc⟩ := stepVmm_inv h
  rcases hc with ⟨ty, msg, rfl, hs2, rfl⟩ | ⟨stop, rfl, hd, rfl⟩ | ⟨ok, rfl, hs2, rfl⟩ |
    ⟨e, rfl, hs2, hr2, rfl⟩ | ⟨oc, rfl, rfl⟩ | ⟨rfl, rfl⟩ <;>
    simp_all [vmm_shutdown, (dispatch_preserves_flags s _).2]

/-- A step whose event is a Breakpoint comes from an attached running
debugger and leaves the guest stopped at that stop. -/
theorem step_breakpoint_shape {s : Vmm} {a : Act} {o : StepOut} {stop : KernelStop}
    (h : stepVmm s a = some o) (he : o.event = some (.Breakpoint stop)) :
    a = .guestBreak stop ∧ s.debug = .AttachedRunning ∧
    o.state.isStopped = true := by
  obtain ⟨ht, hc⟩ := stepVmm_inv h
  rcases hc with ⟨ty, msg, rfl, hs2, rfl⟩ | ⟨st2, rfl, hd, rfl⟩ | ⟨ok, rfl, hs2, rfl⟩ |
    ⟨e, rfl, hs2, hr2, rfl⟩ | ⟨oc, rfl, rfl⟩ | ⟨rfl, rfl⟩ <;>
    simp_all [Vmm.isStopped]

/-- A step from an unstopped state that does not deliver a Breakpoint event
leaves the guest unstopped. -/
theorem step_unstopped_preserve {s : Vmm} {a : Act} {o : StepOut}
    (h : stepVmm s a = some o) (hs : s.isStopped = false)
    (hb : ∀ stop, o.event ≠ some (.Breakpoint stop)) :
    o.state.isStopped = false := by
  obtain ⟨ht, hc⟩ := stepVmm_inv h
  rcases hc with ⟨ty, msg, rfl, hs2, rfl⟩ | ⟨st2, rfl, hd, rfl⟩ | ⟨ok, rfl, hs2, rfl⟩ |
    ⟨e, rfl, hs2, hr2, rfl⟩ | ⟨oc, rfl, rfl⟩ | ⟨rfl, rfl⟩
  · simpa using hs
  · exact absurd rfl (hb st2)
  · simpa [Vmm.isStopped] using hs
  · simpa [Vmm.isStopped] using hs
  · simp [dispatch_unstopped_id s oc hs, hs]
  · simpa [vmm_shutdown, Vmm.isStopped] using hs

/-- From a stopped state a step is either a shutdown call (which keeps the
stop pending) or a dispatch call (which resolves it). -/
theorem step_stopped_shape {s : Vmm} {a : Act} {o : StepOut}
    (h : stepVmm s a = some o) (hs : s.isStopped = true) :
    (a = .callShutdown ∧ o = ⟨vmm_shutdown s, Option.none, Option.none⟩ ∧
      o.state.isStopped = true) ∨
    (∃ oc, a = .callDispatch oc ∧ o.state.isStopped = false ∧
      o.event = Option.none) := by
  obtain ⟨ht, hc⟩ := stepVmm_inv h
  rcases hc with ⟨ty, msg, rfl, hs2, rfl⟩ | ⟨st2, rfl, hd, rfl⟩ | ⟨ok, rfl, hs2, rfl⟩ |
    ⟨e, rfl, hs2, hr2, rfl⟩ | ⟨oc, rfl, rfl⟩ | ⟨rfl, rfl⟩
  · simp_all
  · simp_all [Vmm.isStopped]
  · simp_all
  · simp_all
  · exact Or.inr ⟨oc, rfl, dispatch_stopped_resolves s oc hs, rfl⟩
  · exact Or.inl ⟨rfl, rfl, by simpa [vmm_shutdown, Vmm.isStopped] using hs⟩

/-- Unfolding equation of `runVmm` on the empty action list. -/
theorem runVmm_nil (s : Vmm) : runVmm s [] = some (s, []) := rfl

/-- Unfolding equation of `runVmm` on a first action. -/
theorem runVmm_cons (s : Vmm) (a : Act) (rest : List Act) :
    runVmm s (a :: rest) =
      match stepVmm s a with
      | Option.none => Option.none
      | some o =>
        match runVmm o.state rest with
        | Option.none => Option.none
        | some (s2, h) => some (s2, ⟨s, a, o⟩ :: h) := rfl

/-- Unfolding of a run on a first action. -/
theorem runVmm_cons_inv {s : Vmm} {a : Act} {rest : List Act} {s1 : Vmm}
    {h : List HistEntry} (hr : runVmm s (a :: rest) = some (s1, h)) :
    ∃ o h2, stepVmm s a = some o ∧ runVmm o.state rest = some (s1, h2) ∧
      h = ⟨s, a, o⟩ :: h2 := by
  rw [runVmm_cons] at hr
  rcases hstep : stepVmm s a with _ | o
  · simp [hstep] at hr
  · simp only [hstep] at hr
    rcases hrest : runVmm o.state rest with _ | ⟨s2, h2⟩
    · simp [hrest] at hr
    · simp only [hrest, Option.some.injEq, Prod.mk.injEq] at hr
      obtain ⟨rfl, rfl⟩ := hr
      exact ⟨o, h2, rfl, hrest, rfl⟩

/-- The recorded history has exactly the run's actions, in order. -/
theorem runVmm_acts {acts : List Act} : ∀ {s s1 : Vmm} {h : List HistEntry},
    runVmm s acts = some (s1, h) → h.map (fun x => x.act) = acts := by
  induction acts with
  | nil =>
    intro s s1 h hr
    rcases hr with ⟨rfl, rfl⟩
    rfl
  | cons a rest ih =>
    intro s s1 h hr
    obtain ⟨o, h2, hstep, hrest, rfl⟩ := runVmm_cons_inv hr
    simp [ih hrest]

/-- Every history entry of a run is a valid step. -/
theorem runVmm_entries_valid {acts : List Act} : ∀ {s s1 : Vmm} {h : List HistEntry},
    runVmm s acts = some (s1, h) → ∀ x ∈ h, stepVmm x.pre x.act = some x.out := by
  induction acts with
  | nil =>
    intro s s1 h hr
    rcases hr with ⟨rfl, rfl⟩
    intro x hx
    cases hx
  | cons a rest ih =>
    intro s s1 h hr
    obtain ⟨o, h2, hstep, hrest, rfl⟩ := runVmm_cons_inv hr
    intro x hx
    rcases List.mem_cons.mp hx with rfl | hx2
    · exact hstep
    · exact ih hrest x hx2

/-- No action is possible after termination, so a valid run from a
terminated state is empty. -/
theorem runVmm_terminated {s : Vmm} (ht : s.terminated = true) :
    ∀ {acts : List Act} {s1 : Vmm} {h : List HistEntry},
      runVmm s acts = some (s1, h) → acts = [] ∧ h = [] ∧ s1 = s := by
  intro acts s1 h hr
  cases acts with
  | nil =>
    rcases hr with ⟨rfl, rfl⟩
    exact ⟨rfl, rfl, rfl⟩
  | cons a rest =>
    obtain ⟨o, h2, hstep, _, _⟩ := runVmm_cons_inv hr
    simp [stepVmm, ht] at hstep

/-- A run splits at any decomposition of its history. -/
theorem runVmm_append_inv {hA : List HistEntry} :
    ∀ {s s1 : Vmm} {acts : List Act} {hB : List HistEntry},
      runVmm s acts = some (s1, hA ++ hB) →
      ∃ sMid, runVmm s (hA.map (fun x => x.act)) = some (sMid, hA) ∧
        runVmm sMid (hB.map (fun x => x.act)) = some (s1, hB) := by
  induction hA with
  | nil =>
    intro s s1 acts hB hr
    have hacts := runVmm_acts hr
    refine ⟨s, rfl, ?_⟩
    rw [List.nil_append] at hr hacts
    rw [hacts]
    exact hr
  | cons x hA2 ih =>
    intro s s1 acts hB hr
    have hacts := runVmm_acts hr
    subst hacts
    have hr2 : runVmm s (x.act :: ((hA2 ++ hB).map fun y => y.act)) =
        some (s1, (x :: hA2) ++ hB) := by simpa using hr
    obtain ⟨o, h2, hstep, hrest, heq⟩ := runVmm_cons_inv hr2
    rw [List.cons_append] at heq
    injection heq with hx htail
    rw [← htail] at hrest
    obtain ⟨sMid, h1run, h2run⟩ := ih hrest
    refine ⟨sMid, ?_, h2run⟩
    rw [List.map_cons, runVmm_cons]
    simp only [hstep, h1run]
    rw [← hx]

/-- Events of a history with a first entry. -/
theorem histEvents_cons (x : HistEntry) (h : List HistEntry) :
    histEvents (x :: h) =
      match x.out.event with
      | some e => e :: histEvents h
      | Option.none => histEvents h := by
  rw [histEvents, List.filterMap_cons]
  rcases x.out.event with _ | e <;> rfl

/-- An entry that does not deliver a Breakpoint event delivers no
`some (Breakpoint _)`. -/
theorem emitsBreakpoint_false {x : HistEntry} (h : x.emitsBreakpoint = false) :
    ∀ stop, x.out.event ≠ some (.Breakpoint stop) := by
  intro stop hc
  rw [HistEntry.emitsBreakpoint, hc] at h
  simp at h

/-- A requested shutdown stays requested along any run. -/
theorem run_shutdown_mono {acts : List Act} : ∀ {s s1 : Vmm} {h : List HistEntry},
    runVmm s acts = some (s1, h) → s.shutdownRequested = true →
    (∀ x ∈ h, x.pre.shutdownRequested = true) ∧ s1.shutdownRequested = true := by
  induction acts with
  | nil =>
    intro s s1 h hr hsr
    rcases hr with ⟨rfl, rfl⟩
    exact ⟨fun x hx => absurd hx (List.not_mem_nil x), hsr⟩
  | cons a rest ih =>
    intro s s1 h hr hsr
    obtain ⟨o, h2, hstep, hrest, rfl⟩ := runVmm_cons_inv hr
    obtain ⟨hall, hfin⟩ := ih hrest (step_shutdown_mono hstep hsr)
    refine ⟨?_, hfin⟩
    intro x hx
    rcases List.mem_cons.mp hx with rfl | hx2
    · exact hsr
    · exact hall x hx2

/-- Terminal-event invariant of a run from a live state: while the final
state is live no terminal event has been delivered; when the final state is
terminated the events are some non-terminal ones followed by exactly one
terminal event, which is last. -/
theorem run_terminal_inv {acts : List Act} : ∀ {s s1 : Vmm} {h : List HistEntry},
    runVmm s acts = some (s1, h) → s.terminated = false →
    (s1.terminated = false → ∀ e ∈ histEvents h, e.isTerminal = false) ∧
    (s1.terminated = true → ∃ evs t, histEvents h = evs ++ [t] ∧
      t.isTerminal = true ∧ ∀ e ∈ evs, e.isTerminal = false) := by
  induction acts with
  | nil =>
    intro s s1 h hr ht
    rcases hr with ⟨rfl, rfl⟩
    constructor
    · intro _ e he
      cases he
    · intro hc
      rw [ht] at hc
      cases hc
  | cons a rest ih =>
    intro s s1 h hr ht
    obtain ⟨o, h2, hstep, hrest, rfl⟩ := runVmm_cons_inv hr
    by_cases ho : o.state.terminated = true
    · obtain ⟨_, rfl, rfl⟩ := runVmm_terminated ho hrest
      obtain ⟨e, hev, hterm⟩ := (step_terminal_iff hstep).mpr ho
      constructor
      · intro hc
        rw [hc] at ho
        cases ho
      · intro _
        refine ⟨[], e, ?_, hterm, fun x hx => by cases hx⟩
        rw [histEvents_cons, hev]
        rfl
    · rw [Bool.not_eq_true] at ho
      obtain ⟨hlive, hdead⟩ := ih hrest ho
      have hnoterm : ∀ e, o.event = some e → e.isTerminal = false := by
        intro e hev
        by_cases hte : e.isTerminal = true
        · exact absurd ((step_terminal_iff hstep).mp ⟨e, hev, hte⟩) (by simp [ho])
        · exact Bool.not_eq_true _ ▸ hte
      constructor
      · intro hfin e he
        rw [histEvents_cons] at he
        rcases hev : o.event with _ | e0
        · rw [hev] at he
          exact hlive hfin e he
        · rw [hev] at he
          rcases List.mem_cons.mp he with rfl | he2
          · exact hnoterm e hev
          · exact hlive hfin e he2
      · intro hfin
        obtain ⟨evs, t, hsplit, hterm, hpre⟩ := hdead hfin
        rw [histEvents_cons]
        rcases hev : o.event with _ | e0
        · exact ⟨evs, t, by simp [hev, hsplit], hterm, hpre⟩
        · refine ⟨e0 :: evs, t, by simp [hev, hsplit], hterm, ?_⟩
          intro e he
          rcases List.mem_cons.mp he with rfl | he2
          · exact hnoterm e hev
          · exact hpre e he2

/-- A run from a live state into a terminated state ends with the
terminating entry; every earlier entry leaves the state live. -/
theorem run_last_terminating {acts : List Act} : ∀ {s s1 : Vmm} {h : List HistEntry},
    runVmm s acts = some (s1, h) → s.terminated = false → s1.terminated = true →
    ∃ h0 xl, h = h0 ++ [xl] ∧ stepVmm xl.pre xl.act = some xl.out ∧
      xl.pre.terminated = false ∧ xl.out.state = s1 ∧
      ∀ x ∈ h0, x.out.state.terminated = false := by
  induction acts with
  | nil =>
    intro s s1 h hr ht hfin
    rcases hr with ⟨rfl, rfl⟩
    rw [ht] at hfin
    cases hfin
  | cons a rest ih =>
    intro s s1 h hr ht hfin
    obtain ⟨o, h2, hstep, hrest, rfl⟩ := runVmm_cons_inv hr
    by_cases ho : o.state.terminated = true
    · obtain ⟨_, rfl, rfl⟩ := runVmm_terminated ho hrest
      exact ⟨[], ⟨s, a, o⟩, rfl, hstep, ht, rfl, fun x hx => by cases hx⟩
    · rw [Bool.not_eq_true] at ho
      obtain ⟨h0, xl, rfl, hxstep, hxlive, hxfin, hall⟩ := ih hrest ho hfin
      refine ⟨⟨s, a, o⟩ :: h0, xl, rfl, hxstep, hxlive, hxfin, ?_⟩
      intro x hx
      rcases List.mem_cons.mp hx with rfl | hx2
      · exact ho
      · exact hall x hx2

/-- Along a run with no Breakpoint event from an unstopped state, the state
stays unstopped and no dispatch resolves a stop. -/
theorem run_unstopped_seg {acts : List Act} : ∀ {s s1 : Vmm} {h : List HistEntry},
    runVmm s acts = some (s1, h) → (∀ x ∈ h, x.emitsBreakpoint = false) →
    s.isStopped = false →
    s1.isStopped = false ∧ h.countP HistEntry.resolvesStop = 0 := by
  induction acts with
  | nil =>
    intro s s1 h hr _ hs
    rcases hr with ⟨rfl, rfl⟩
    exact ⟨hs, rfl⟩
  | cons a rest ih =>
    intro s s1 h hr hnb hs
    obtain ⟨o, h2, hstep, hrest, rfl⟩ := runVmm_cons_inv hr
    have hhead : HistEntry.emitsBreakpoint ⟨s, a, o⟩ = false :=
      hnb _ (List.mem_cons_self _ _)
    have ho : o.state.isStopped = false :=
      step_unstopped_preserve hstep hs (emitsBreakpoint_false hhead)
    obtain ⟨hfin, hcount⟩ := ih hrest (fun x hx => hnb x (List.mem_cons_of_mem _ hx)) ho
    refine ⟨hfin, ?_⟩
    rw [List.countP_cons, hcount]
    simp [HistEntry.resolvesStop, hs]

/-- Along a run with no Breakpoint event from a stopped state, either the
stop is still pending and no dispatch resolved one, or the stop has been
resolved by exactly one dispatch. -/
theorem run_stopped_seg {acts : List Act} : ∀ {s s1 : Vmm} {h : List HistEntry},
    runVmm s acts = some (s1, h) → (∀ x ∈ h, x.emitsBreakpoint = false) →
    s.isStopped = true →
    (s1.isStopped = true ∧ h.countP HistEntry.resolvesStop = 0) ∨
    (s1.isStopped = false ∧ h.countP HistEntry.resolvesStop = 1) := by
  induction acts with
  | nil =>
    intro s s1 h hr _ hs
    rcases hr with ⟨rfl, rfl⟩
    exact Or.inl ⟨hs, rfl⟩
  | cons a rest ih =>
    intro s s1 h hr hnb hs
    obtain ⟨o, h2, hstep, hrest, rfl⟩ := runVmm_cons_inv hr
    rcases step_stopped_shape hstep hs with ⟨rfl, rfl, hostop⟩ | ⟨oc, rfl, hostop, hev⟩
    · rcases ih hrest (fun x hx => hnb x (List.mem_cons_of_mem _ hx)) hostop with
        ⟨hfin, hcount⟩ | ⟨hfin, hcount⟩
      · refine Or.inl ⟨hfin, ?_⟩
        rw [List.countP_cons, hcount]
        simp [HistEntry.resolvesStop]
      · refine Or.inr ⟨hfin, ?_⟩
        rw [List.countP_cons, hcount]
        simp [HistEntry.resolvesStop]
    · obtain ⟨hfin, hcount⟩ :=
        run_unstopped_seg hrest (fun x hx => hnb x (List.mem_cons_of_mem _ hx)) hostop
      refine Or.inr ⟨hfin, ?_⟩
      rw [List.countP_cons, hcount]
      simp [HistEntry.resolvesStop, hs]

/-- Shape of a successfully started Vmm: live, no shutdown requested, and
the start input passed every validation step. -/
theorem vmm_start_ok_shape {i : VmmStartInput} {v : Vmm}
    (h : vmm_start i = .ok v) :
    v.terminated = false ∧ v.shutdownRequested = false ∧ i.valid = true := by
  rcases i with ⟨k, hv, sc, pr, dbg⟩
  cases k <;> cases hv <;> cases sc <;> cases pr <;> simp [vmm_start] at h
  refine ⟨?_, ?_, ?_⟩ <;> simp_all [VmmStartInput.valid, ← h]

/-- In a list of the shape `evs ++ [t0]` where every element of `evs` fails
the predicate, an element satisfying the predicate is the last one. -/
theorem satisfying_elem_is_last {α : Type} (p : α → Bool) :
    ∀ (evs l1 l2 : List α) (t t0 : α), evs ++ [t0] = l1 ++ t :: l2 →
      p t = true → (∀ e ∈ evs, p e = false) → l2 = [] := by
  intro evs
  induction evs with
  | nil =>
    intro l1 l2 t t0 heq _ _
    cases l1 with
    | nil =>
      injection heq with h1 h2
      exact h2.symm
    | cons a l1 =>
      injection heq with h1 h2
      simp at h2
  | cons e evs ih =>
    intro l1 l2 t t0 heq hp hall
    cases l1 with
    | nil =>
      injection heq with h1 h2
      rw [← h1] at hp
      rw [hall e (List.mem_cons_self _ _)] at hp
      cases hp
    | cons a l1 =>
      injection heq with h1 h2
      exact ih l1 l2 t t0 h2 hp fun x hx => hall x (List.mem_cons_of_mem _ hx)

/-- A decomposition of the image of a list under a map lifts to a
decomposition of the list itself. -/
theorem map_decomp {α β : Type} (f : α → β) :
    ∀ (h : List α) (l1 : List β) (b : β) (l2 : List β),
      h.map f = l1 ++ b :: l2 →
      ∃ hA x hB, h = hA ++ x :: hB ∧ hA.map f = l1 ∧ f x = b ∧ hB.map f = l2 := by
  intro h
  induction h with
  | nil =>
    intro l1 b l2 heq
    rw [List.map_nil] at heq
    exact absurd heq.symm (List.append_ne_nil_of_right_ne_nil _ (List.cons_ne_nil _ _))
  | cons y h2 ih =>
    intro l1 b l2 heq
    rw [List.map_cons] at heq
    cases l1 with
    | nil =>
      injection heq with h1 h3
      exact ⟨[], y, h2, rfl, rfl, h1, h3⟩
    | cons a l1 =>
      injection heq with h1 h3
      obtain ⟨hA, x, hB, rfl, hmapA, hfx, hmapB⟩ := ih l1 b l2 h3
      exact ⟨y :: hA, x, hB, rfl, by rw [List.map_cons, hmapA, h1], hfx, hmapB⟩

/-- The last element of a list that also decomposes around a middle element
with a nonempty tail lies in that tail. -/
theorem last_elem_in_tail {α : Type} :
    ∀ (hA : List α) (sh : α) (hB h0 : List α) (xl : α),
      hA ++ sh :: hB = h0 ++ [xl] → hB ≠ [] → xl ∈ hB := by
  intro hA
  induction hA with
  | nil =>
    intro sh hB h0 xl heq hne
    cases h0 with
    | nil =>
      injection heq with h1 h2
      exact absurd h2 hne
    | cons y h0 =>
      injection heq with h1 h2
      rw [h2]
      exact List.mem_append_right _ (List.mem_singleton.mpr rfl)
  | cons a hA ih =>
    intro sh hB h0 xl heq hne
    cases h0 with
    | nil =>
      injection heq with h1 h2
      simp at h2
    | cons y h0 =>
      injection heq with h1 h2
      exact ih sh hB h0 xl h2 hne

/-! ### Claim theorems -/

/-- Claim C1: for every (kernel, screen, profile) triple, `vmm_start` returns
exactly one of a usable Vmm handle or an Error through the `err`
out-parameter — never both, never neither — and on any validation/setup
failure no partial Vmm handle is produced. -/
theorem vmm_start_returns_exactly_one (i : VmmStartInput) :
    ((vmm_start_ffi i).1.isSome = !(vmm_start_ffi i).2.isSome) ∧
    (i.valid = true → ∃ v, vmm_start_ffi i = (some v, Option.none)) ∧
    (i.valid = false → (vmm_start_ffi i).1 = Option.none ∧
      ∃ e, (vmm_start_ffi i).2 = some e) := by
  rcases i with ⟨k, hv, sc, pr, dbg⟩
  cases k <;> cases hv <;> cases sc <;> cases pr <;>
    simp [vmm_start_ffi, vmm_start, VmmStartInput.valid]

/-- Witness for C1: an input failing kernel validation yields no Vmm. -/
theorem vmm_start_returns_exactly_one_witness :
    (VmmStartInput.mk false true true true Option.none).valid = false ∧
    (vmm_start_ffi ⟨false, true, true, true, Option.none⟩).1 = Option.none :=
  ⟨rfl, ((vmm_start_returns_exactly_one ⟨false, true, true, true, Option.none⟩).2.2
    rfl).1⟩

/-- Claim C2: saving a Profile to a path and loading the path back yields a
Profile whose identity, name and display resolution equal the original's
exactly, and the save reports no error. -/
theorem profile_save_load_round_trip (p : Profile) (path : String)
    (fs : FileSystem) :
    (profile_save p path fs).2 = Option.none ∧
    profile_load path (profile_save p path fs).1 = .ok p ∧
    ∀ q, profile_load path (profile_save p path fs).1 = .ok q →
      profile_id q = profile_id p ∧ profile_name q = profile_name p ∧
      profile_display_resolution q = profile_display_resolution p := by
  have hload : profile_load path (profile_save p path fs).1 = .ok p := by
    simp [profile_load, profile_save, deserialize_serialize]
  refine ⟨rfl, hload, ?_⟩
  intro q hq
  rw [hload] at hq
  injection hq with hpq
  cases hpq
  exact ⟨rfl, rfl, rfl⟩

/-- Witness for C2: a profile named "X" with UltraHd resolution loads back
equal after a save, with its fields preserved. -/
theorem profile_save_load_round_trip_witness :
    profile_load "profile.bin"
      ((profile_save ⟨"i0", "X", .UltraHd⟩ "profile.bin" fun _ => Option.none).1) =
      .ok ⟨"i0", "X", .UltraHd⟩ ∧
    profile_name (⟨"i0", "X", .UltraHd⟩ : Profile) =
      profile_name (⟨"i0", "X", .UltraHd⟩ : Profile) ∧
    profile_display_resolution (⟨"i0", "X", .UltraHd⟩ : Profile) =
      profile_display_resolution (⟨"i0", "X", .UltraHd⟩ : Profile) :=
  ⟨(profile_save_load_round_trip ⟨"i0", "X", .UltraHd⟩ "profile.bin"
      fun _ => Option.none).2.1,
   ((profile_save_load_round_trip ⟨"i0", "X", .UltraHd⟩ "profile.bin"
      fun _ => Option.none).2.2 ⟨"i0", "X", .UltraHd⟩
      ((profile_save_load_round_trip ⟨"i0", "X", .UltraHd⟩ "profile.bin"
        fun _ => Option.none).2.1)).2.1,
   ((profile_save_load_round_trip ⟨"i0", "X", .UltraHd⟩ "profile.bin"
      fun _ => Option.none).2.2 ⟨"i0", "X", .UltraHd⟩
      ((profile_save_load_round_trip ⟨"i0", "X", .UltraHd⟩ "profile.bin"
        fun _ => Option.none).2.1)).2.2⟩

/-- Claim C6: `vmm_dispatch_debug` returns Disconnected exactly when the
debugger connection closes during a dispatch of a pending stop (moving the
state machine to Detached); an Error result leaves the Vmm fully usable and
running (flags untouched, not stopped); and Ok is returned exactly on a
successful resume negotiation (moving to Attached-Running). -/
theorem dispatch_debug_result_characterization (s : Vmm) (o : DispatchOutcome) :
    ((vmm_dispatch_debug s o).2 = .Disconnected ↔
      s.isStopped = true ∧ o = .disconnect) ∧
    ((vmm_dispatch_debug s o).2 = .Disconnected →
      (vmm_dispatch_debug s o).1.debug = .Detached) ∧
    (∀ e, (vmm_dispatch_debug s o).2 = .Error e →
      (vmm_dispatch_debug s o).1.terminated = s.terminated ∧
      (vmm_dispatch_debug s o).1.shutdownRequested = s.shutdownRequested ∧
      (vmm_dispatch_debug s o).1.isStopped = false) ∧
    ((vmm_dispatch_debug s o).2 = .Ok ↔ s.isStopped = true ∧ o = .resume) ∧
    ((vmm_dispatch_debug s o).2 = .Ok →
      (vmm_dispatch_debug s o).1.debug = .AttachedRunning) := by
  rcases s with ⟨d, sr, t⟩
  rcases d with _ | _ | stop <;> cases o <;>
    simp [vmm_dispatch_debug, Vmm.isStopped]

/-- Witness for C6: a disconnect during dispatch of a pending stop returns
Disconnected and detaches the state machine. -/
theorem dispatch_debug_result_characterization_witness :
    (vmm_dispatch_debug ⟨.AttachedStopped ⟨0⟩, false, false⟩
      DispatchOutcome.disconnect).2 = .Disconnected ∧
    (vmm_dispatch_debug ⟨.AttachedStopped ⟨0⟩, false, false⟩
      DispatchOutcome.disconnect).1.debug = .Detached :=
  ⟨(dispatch_debug_result_characterization ⟨.AttachedStopped ⟨0⟩, false, false⟩
      DispatchOutcome.disconnect).1.mpr ⟨rfl, rfl⟩,
   (dispatch_debug_result_characterization ⟨.AttachedStopped ⟨0⟩, false, false⟩
      DispatchOutcome.disconnect).2.1
    ((dispatch_debug_result_characterization ⟨.AttachedStopped ⟨0⟩, false, false⟩
      DispatchOutcome.disconnect).1.mpr ⟨rfl, rfl⟩)⟩

/-- Claim C7: a Profile's display resolution is always one of exactly the
three enumerated values (HD 1280×720, Full HD 1920×1080, Ultra HD
3840×2160), the value-to-dimensions map is injective (bijective onto the
three documented dimension pairs), the accessor never returns anything
else, and the mutator accepts exactly these three values. -/
theorem display_resolution_exactly_three :
    (∀ r : DisplayResolution, r = .Hd ∨ r = .FullHd ∨ r = .UltraHd) ∧
    DisplayResolution.dims .Hd = (1280, 720) ∧
    DisplayResolution.dims .FullHd = (1920, 1080) ∧
    DisplayResolution.dims .UltraHd = (3840, 2160) ∧
    Function.Injective DisplayResolution.dims ∧
    (∀ p : Profile, profile_display_resolution p = .Hd ∨
      profile_display_resolution p = .FullHd ∨
      profile_display_resolution p = .UltraHd) ∧
    (∀ p v, profile_display_resolution (profile_set_display_resolution p v) = v) := by
  refine ⟨fun r => ?_, rfl, rfl, rfl, ?_, fun p => ?_, fun p v => rfl⟩
  · cases r
    · exact Or.inl rfl
    · exact Or.inr (Or.inl rfl)
    · exact Or.inr (Or.inr rfl)
  · intro a b hab
    cases a <;> cases b <;> simp_all [DisplayResolution.dims]
  · rcases p with ⟨i, n, r⟩
    cases r
    · exact Or.inl rfl
    · exact Or.inr (Or.inl rfl)
    · exact Or.inr (Or.inr rfl)

/-- Witness for C7: the dimensions of UltraHd, and injectivity applied at
equal dimensions. -/
theorem display_resolution_exactly_three_witness :
    DisplayResolution.dims .UltraHd = (3840, 2160) ∧
    (DisplayResolution.Hd = DisplayResolution.Hd) :=
  ⟨display_resolution_exactly_three.2.2.2.1,
   display_resolution_exactly_three.2.2.2.2.1 rfl⟩

/-- Claim C8: starting with every setup step passing and no debugger
succeeds with debug state Detached, and calling `vmm_dispatch_debug` on a
Detached Vmm is a no-op on the state that returns an Error result — a
total, defined behaviour, never a crash. -/
theorem start_detached_dispatch_safe :
    (∀ i : VmmStartInput, i.valid = true → i.debugger = Option.none →
      ∃ v, vmm_start i = .ok v ∧ v.debug = .Detached ∧ v.terminated = false) ∧
    (∀ (s : Vmm) (o : DispatchOutcome), s.debug = .Detached →
      vmm_dispatch_debug s o = (s, .Error ⟨"no debugger attached"⟩)) := by
  constructor
  · intro i hvalid hdbg
    rcases i with ⟨k, hv, sc, pr, dbg⟩
    simp only [VmmStartInput.valid, Bool.and_eq_true] at hvalid
    obtain ⟨⟨⟨hk, hh⟩, hs⟩, hp⟩ := hvalid
    subst hk
    subst hh
    subst hs
    subst hp
    cases hdbg
    exact ⟨⟨.Detached, false, false⟩, rfl, rfl, rfl⟩
  · intro s o hdet
    rcases s with ⟨d, sr, t⟩
    cases hdet
    cases o <;> rfl

/-- Witness for C8: the all-valid debugger-free input starts Detached, and a
dispatch on a Detached Vmm returns the documented error result. -/
theorem start_detached_dispatch_safe_witness :
    (∃ v, vmm_start ⟨true, true, true, true, Option.none⟩ = .ok v ∧
      v.debug = .Detached ∧ v.terminated = false) ∧
    vmm_dispatch_debug ⟨.Detached, false, false⟩ .resume =
      (⟨.Detached, false, false⟩, .Error ⟨"no debugger attached"⟩) :=
  ⟨start_detached_dispatch_safe.1 ⟨true, true, true, true, Option.none⟩ rfl rfl,
   start_detached_dispatch_safe.2 ⟨.Detached, false, false⟩ .resume rfl⟩

/-- Claim C9: the C++ Error wrapper calls `error_free` on its underlying
object exactly once iff it holds one: the default-constructed wrapper holds
none and frees nothing, the destructor frees a held object exactly once
(copying is deleted in the source, so no operation duplicating ownership
exists), and `operator bool` is true exactly when an object is held. -/
theorem cpp_error_frees_exactly_once :
    (Cpp.Error.default.m_obj = Option.none ∧ Cpp.Error.default.destructor = []) ∧
    (∀ o : RustError, (Cpp.Error.fromObj o).destructor = [FfiCall.errorFreeCall o]) ∧
    (∀ e : Cpp.Error,
      e.destructor.countP FfiCall.isErrorFree =
        if e.m_obj.isSome then 1 else 0) ∧
    (∀ (e : Cpp.Error) (o : RustError), e.m_obj = some o →
      e.destructor.countP (FfiCall.isErrorFreeOn o) = 1) ∧
    (∀ e : Cpp.Error, e.toBool = true ↔ e.m_obj ≠ Option.none) := by
  refine ⟨⟨rfl, rfl⟩, fun o => rfl, fun e => ?_, fun e o he => ?_, fun e => ?_⟩
  · rcases e with ⟨_ | o⟩ <;>
      simp [Cpp.Error.destructor, FfiCall.isErrorFree, List.countP_cons]
  · rcases e with ⟨eo⟩
    obtain rfl : eo = some o := he
    simp [Cpp.Error.destructor, FfiCall.isErrorFreeOn, List.countP_cons]
  · rcases e with ⟨_ | o⟩ <;> simp [Cpp.Error.toBool]

/-- Witness for C9: a wrapper holding an object frees it exactly once. -/
theorem cpp_error_frees_exactly_once_witness :
    (Cpp.Error.mk (some ⟨"boom"⟩)).destructor.countP
      (FfiCall.isErrorFreeOn ⟨"boom"⟩) = 1 :=
  cpp_error_frees_exactly_once.2.2.2.1 ⟨some ⟨"boom"⟩⟩ ⟨"boom"⟩ rfl

/-- Claim C10: for a wrapper holding an object, `Error::message` returns the
string produced by `error_message` for that object and frees the returned C
string exactly once (calling `error_message` exactly once), so the caller
receives an owned copy and the FFI buffer is released. -/
theorem cpp_error_message_copies_and_frees (e : Cpp.Error) (o : RustError)
    (he : e.m_obj = some o) :
    ∃ log, Cpp.Error.message e = some (error_message o, log) ∧
      log.countP (FfiCall.isStdFreeOn (error_message o)) = 1 ∧
      log.countP FfiCall.isErrorMessage = 1 := by
  rcases e with ⟨eo⟩
  obtain rfl : eo = some o := he
  refine ⟨[.errorMessageCall o, .stdFreeCall (error_message o)], rfl, ?_, ?_⟩
  · simp [List.countP_cons, FfiCall.isStdFreeOn]
  · simp [List.countP_cons, FfiCall.isErrorMessage]

/-- Witness for C10: the message of a held error is returned and its buffer
freed once. -/
theorem cpp_error_message_copies_and_frees_witness :
    ∃ log, Cpp.Error.message ⟨some ⟨"oops"⟩⟩ = some (error_message ⟨"oops"⟩, log) ∧
      log.countP (FfiCall.isStdFreeOn (error_message ⟨"oops"⟩)) = 1 ∧
      log.countP FfiCall.isErrorMessage = 1 :=
  cpp_error_message_copies_and_frees ⟨some ⟨"oops"⟩⟩ ⟨"oops"⟩ rfl

/-- An entry delivers a Breakpoint event exactly when its output event is
`some (Breakpoint _)`. -/
theorem emitsBreakpoint_true_iff (x : HistEntry) :
    x.emitsBreakpoint = true ↔ ∃ st, x.out.event = some (.Breakpoint st) := by
  rw [HistEntry.emitsBreakpoint]
  rcases hev : x.out.event with _ | e
  · simp
  · cases e <;> simp

/-- An Exiting event is terminal. -/
theorem isTerminal_of_isExiting {e : VmmEvent} (h : e.isExiting = true) :
    e.isTerminal = true := by
  cases e <;> simp_all [VmmEvent.isExiting, VmmEvent.isTerminal]

/-- Claim C3: over a Vmm's whole lifetime from a successful start, at most
one terminal event (Error or Exiting) is ever delivered through the event
callback, and no event of any kind follows a terminal event. -/
theorem vmm_at_most_one_terminal_event
    (i : VmmStartInput) (v : Vmm) (acts : List Act) (s1 : Vmm)
    (h : List HistEntry)
    (hstart : vmm_start i = .ok v) (hrun : runVmm v acts = some (s1, h)) :
    (histEvents h).countP VmmEvent.isTerminal ≤ 1 ∧
    ∀ l1 t l2, histEvents h = l1 ++ t :: l2 → t.isTerminal = true → l2 = [] := by
  have hlive := (vmm_start_ok_shape hstart).1
  obtain ⟨hl, hd⟩ := run_terminal_inv hrun hlive
  by_cases hfin : s1.terminated = true
  · obtain ⟨evs, t0, hsplit, hterm, hpre⟩ := hd hfin
    constructor
    · rw [hsplit, List.countP_append]
      have hzero : evs.countP VmmEvent.isTerminal = 0 :=
        List.countP_eq_zero.mpr fun e he => by simp [hpre e he]
      rw [hzero, List.countP_cons]
      simp [hterm]
    · intro l1 t l2 heq hterm2
      exact satisfying_elem_is_last VmmEvent.isTerminal evs l1 l2 t t0
        (hsplit.symm.trans heq) hterm2 hpre
  · rw [Bool.not_eq_true] at hfin
    have hall := hl hfin
    constructor
    · have hzero : (histEvents h).countP VmmEvent.isTerminal = 0 :=
        List.countP_eq_zero.mpr fun e he => by simp [hall e he]
      rw [hzero]
      exact Nat.zero_le 1
    · intro l1 t l2 heq hterm2
      have hmem : t ∈ histEvents h := by
        rw [heq]
        exact List.mem_append_right _ (List.mem_cons_self _ _)
      exact absurd hterm2 (by simp [hall t hmem])

/-- Witness for C3: a run delivering one Exiting event satisfies the
bound. -/
theorem vmm_at_most_one_terminal_event_witness :
    (histEvents [⟨⟨.Detached, false, false⟩, .guestExit true,
      ⟨⟨.Detached, false, true⟩, some (.Exiting true), Option.none⟩⟩]).countP
      VmmEvent.isTerminal ≤ 1 :=
  (vmm_at_most_one_terminal_event ⟨true, true, true, true, Option.none⟩
    ⟨.Detached, false, false⟩ [.guestExit true] ⟨.Detached, false, true⟩
    [⟨⟨.Detached, false, false⟩, .guestExit true,
      ⟨⟨.Detached, false, true⟩, some (.Exiting true), Option.none⟩⟩]
    rfl rfl).1

/-- Claim C4: from a successful start, the guest never advances past a
pending KernelStop (no guest step occurs while stopped), and between one
Breakpoint event and the next for the same Vmm exactly one dispatch call
resolves the pending stop. -/
theorem breakpoint_stop_resolved_once
    (i : VmmStartInput) (v : Vmm) (acts : List Act) (s1 : Vmm)
    (h : List HistEntry)
    (hstart : vmm_start i = .ok v) (hrun : runVmm v acts = some (s1, h)) :
    (∀ x ∈ h, x.pre.isStopped = true → x.act.isGuest = false) ∧
    ∀ h1 b1 h2 b2 h3, h = h1 ++ b1 :: (h2 ++ b2 :: h3) →
      b1.emitsBreakpoint = true → b2.emitsBreakpoint = true →
      (∀ x ∈ h2, x.emitsBreakpoint = false) →
      h2.countP HistEntry.resolvesStop = 1 := by
  constructor
  · intro x hx hstop
    exact step_stopped_not_guest (runVmm_entries_valid hrun x hx) hstop
  · intro h1 b1 h2 b2 h3 hdec hb1 hb2 hnb
    subst hdec
    obtain ⟨sM1, hrunA, hrunB⟩ := runVmm_append_inv hrun
    have hrunB2 : runVmm sM1 (b1.act :: ((h2 ++ b2 :: h3).map fun y => y.act)) =
        some (s1, b1 :: (h2 ++ b2 :: h3)) := by simpa using hrunB
    obtain ⟨o1, htl1, hstep1, hrest1, heq1⟩ := runVmm_cons_inv hrunB2
    injection heq1 with hb1eq htail1
    rw [← htail1] at hrest1
    obtain ⟨st1, hev1⟩ := (emitsBreakpoint_true_iff b1).mp hb1
    have ho1 : b1.out = o1 := by rw [hb1eq]
    obtain ⟨hact1, hdbg1, hstop1⟩ :=
      step_breakpoint_shape hstep1 (show o1.event = some (.Breakpoint st1) by
        rw [← ho1]; exact hev1)
    obtain ⟨sM2, hrun2, hrun3⟩ := runVmm_append_inv hrest1
    have hrun3b : runVmm sM2 (b2.act :: (h3.map fun y => y.act)) =
        some (s1, b2 :: h3) := by simpa using hrun3
    obtain ⟨o2, htl2, hstep2, _, heq2⟩ := runVmm_cons_inv hrun3b
    injection heq2 with hb2eq _
    have ho2 : b2.out = o2 := by rw [hb2eq]
    obtain ⟨st2, hev2⟩ := (emitsBreakpoint_true_iff b2).mp hb2
    obtain ⟨hact2, hdbg2, _⟩ :=
      step_breakpoint_shape hstep2 (show o2.event = some (.Breakpoint st2) by
        rw [← ho2]; exact hev2)
    have hsM2 : sM2.isStopped = false := by
      rw [Vmm.isStopped, hdbg2]
    rcases run_stopped_seg hrun2 hnb (ho1 ▸ hstop1) with ⟨hfin, _⟩ | ⟨_, hcount⟩
    · rw [hsM2] at hfin
      cases hfin
    · exact hcount

/-- Witness for C4: a run with two Breakpoint events separated by exactly
one resolving dispatch. -/
theorem breakpoint_stop_resolved_once_witness :
    ([⟨⟨.AttachedStopped ⟨1⟩, false, false⟩, .callDispatch .resume,
      ⟨⟨.AttachedRunning, false, false⟩, Option.none, some .Ok⟩⟩] :
      List HistEntry).countP HistEntry.resolvesStop = 1 :=
  (breakpoint_stop_resolved_once ⟨true, true, true, true, some ⟨7⟩⟩
    ⟨.AttachedRunning, false, false⟩
    [.guestBreak ⟨1⟩, .callDispatch .resume, .guestBreak ⟨2⟩]
    ⟨.AttachedStopped ⟨2⟩, false, false⟩
    [⟨⟨.AttachedRunning, false, false⟩, .guestBreak ⟨1⟩,
      ⟨⟨.AttachedStopped ⟨1⟩, false, false⟩, some (.Breakpoint ⟨1⟩), Option.none⟩⟩,
     ⟨⟨.AttachedStopped ⟨1⟩, false, false⟩, .callDispatch .resume,
      ⟨⟨.AttachedRunning, false, false⟩, Option.none, some .Ok⟩⟩,
     ⟨⟨.AttachedRunning, false, false⟩, .guestBreak ⟨2⟩,
      ⟨⟨.AttachedStopped ⟨2⟩, false, false⟩, some (.Breakpoint ⟨2⟩), Option.none⟩⟩]
    rfl rfl).2
    []
    ⟨⟨.AttachedRunning, false, false⟩, .guestBreak ⟨1⟩,
      ⟨⟨.AttachedStopped ⟨1⟩, false, false⟩, some (.Breakpoint ⟨1⟩), Option.none⟩⟩
    [⟨⟨.AttachedStopped ⟨1⟩, false, false⟩, .callDispatch .resume,
      ⟨⟨.AttachedRunning, false, false⟩, Option.none, some .Ok⟩⟩]
    ⟨⟨.AttachedRunning, false, false⟩, .guestBreak ⟨2⟩,
      ⟨⟨.AttachedStopped ⟨2⟩, false, false⟩, some (.Breakpoint ⟨2⟩), Option.none⟩⟩
    []
    rfl rfl rfl (by decide)

/-- Claim C5: `vmm_shutdown` is idempotent, and on any run from a
successful start in which shutdown is called and the Vmm terminates,
`vmm_shutting_down` reports true at every later live point until
termination (false after it), and an Exiting event fires exactly once. -/
theorem shutdown_then_exiting_once :
    (∀ s : Vmm, vmm_shutdown (vmm_shutdown s) = vmm_shutdown s) ∧
    ∀ (i : VmmStartInput) (v : Vmm) (acts1 acts2 : List Act) (s1 : Vmm)
      (h : List HistEntry),
      vmm_start i = .ok v →
      runVmm v (acts1 ++ .callShutdown :: acts2) = some (s1, h) →
      s1.terminated = true →
      ∃ hA sh hB, h = hA ++ sh :: hB ∧ sh.act = .callShutdown ∧
        (∀ x ∈ hB, x.pre.terminated = false → vmm_shutting_down x.pre = true) ∧
        vmm_shutting_down s1 = false ∧
        (histEvents h).countP VmmEvent.isExiting = 1 := by
  refine ⟨fun s => rfl, ?_⟩
  intro i v acts1 acts2 s1 h hstart hrun hfin
  have hlive := (vmm_start_ok_shape hstart).1
  have hacts := runVmm_acts hrun
  obtain ⟨hA, sh, hB, rfl, hmapA, hshact, hmapB⟩ :=
    map_decomp (fun x => x.act) h acts1 .callShutdown acts2 hacts
  obtain ⟨sM, hrunA, hrunB⟩ := runVmm_append_inv hrun
  have hrunB2 : runVmm sM (sh.act :: (hB.map fun y => y.act)) =
      some (s1, sh :: hB) := by simpa using hrunB
  obtain ⟨oSh, hBtl, hstepSh, hrestB, heqSh⟩ := runVmm_cons_inv hrunB2
  injection heqSh with hsheq htailB
  rw [← htailB] at hrestB
  rw [hshact] at hstepSh
  have hoSh : oSh = StepOut.mk (vmm_shutdown sM) Option.none Option.none := by
    rcases (stepVmm_inv hstepSh).2 with ⟨ty, msg, hae, _⟩ | ⟨st, hae, _⟩ |
      ⟨ok2, hae, _⟩ | ⟨e, hae, _⟩ | ⟨oc, hae, _⟩ | ⟨_, ho⟩
    · cases hae
    · cases hae
    · cases hae
    · cases hae
    · cases hae
    · exact ho
  have hreq : oSh.state.shutdownRequested = true := by rw [hoSh]; rfl
  obtain ⟨hallB, hs1req⟩ := run_shutdown_mono hrestB hreq
  refine ⟨hA, sh, hB, rfl, hshact, ?_, ?_, ?_⟩
  · intro x hx hxlive
    rw [vmm_shutting_down, hallB x hx, hxlive]
    rfl
  · rw [vmm_shutting_down, hfin, hs1req]
    rfl
  · obtain ⟨h0, xl, hdecomp, hxlstep, hxllive, hxlfin, hall0⟩ :=
      run_last_terminating hrun hlive hfin
    have hBne : hB ≠ [] := by
      intro hBnil
      subst hBnil
      have hos1 : oSh.state = s1 := by
        rw [List.map_nil, runVmm_nil] at hrestB
        exact (Prod.mk.injEq _ _ _ _ ▸ Option.some.injEq _ _ ▸ hrestB).1
      have hterm : s1.terminated = sM.terminated := by
        rw [← hos1, hoSh]
        rfl
      rw [hfin, (stepVmm_inv hstepSh).1] at hterm
      cases hterm
    have hxlB : xl ∈ hB := last_elem_in_tail hA sh hB h0 xl hdecomp hBne
    have hxlreq : xl.pre.shutdownRequested = true := hallB xl hxlB
    have htermS : xl.out.state.terminated = true := by
      rw [hxlfin]
      exact hfin
    have hexev : ∃ ok2, xl.out.event = some (.Exiting ok2) := by
      rcases (stepVmm_inv hxlstep).2 with ⟨ty, msg, hae, hsx, ho⟩ |
        ⟨st, hae, hdx, ho⟩ | ⟨ok2, hae, hsx, ho⟩ | ⟨e, hae, hsx, hrx, ho⟩ |
        ⟨oc, hae, ho⟩ | ⟨hae, ho⟩
      · exfalso
        rw [ho] at htermS
        have hterm2 : xl.pre.terminated = true := htermS
        rw [hxllive] at hterm2
        cases hterm2
      · exfalso
        rw [ho] at htermS
        have hterm2 : xl.pre.terminated = true := htermS
        rw [hxllive] at hterm2
        cases hterm2
      · exact ⟨ok2, by rw [ho]⟩
      · exfalso
        rw [hxlreq] at hrx
        cases hrx
      · exfalso
        rw [ho] at htermS
        have hterm2 : (vmm_dispatch_debug xl.pre oc).1.terminated = true := htermS
        rw [(dispatch_preserves_flags xl.pre oc).1, hxllive] at hterm2
        cases hterm2
      · exfalso
        rw [ho] at htermS
        have hterm2 : xl.pre.terminated = true := htermS
        rw [hxllive] at hterm2
        cases hterm2
    obtain ⟨ok2, hxlev⟩ := hexev
    rw [hdecomp, histEvents, List.filterMap_append, List.countP_append]
    have hone : (List.filterMap (fun x => x.out.event) [xl]).countP
        VmmEvent.isExiting = 1 := by
      simp [hxlev, VmmEvent.isExiting]
    have hzero : (List.filterMap (fun x => x.out.event) h0).countP
        VmmEvent.isExiting = 0 := by
      apply List.countP_eq_zero.mpr
      intro e he
      obtain ⟨x, hxmem, hxev⟩ := List.mem_filterMap.mp he
      have hxin : x ∈ hA ++ sh :: hB := by
        rw [hdecomp]
        exact List.mem_append_left _ hxmem
      have hstepx := runVmm_entries_valid hrun x hxin
      have hpost := hall0 x hxmem
      have hnt : e.isTerminal = false := by
        by_cases htx : e.isTerminal = true
        · have hcontra := (step_terminal_iff hstepx).mp ⟨e, hxev, htx⟩
          rw [hpost] at hcontra
          cases hcontra
        · rw [Bool.not_eq_true] at htx
          exact htx
      intro hex
      rw [isTerminal_of_isExiting hex] at hnt
      cases hnt
    rw [hzero, hone]

/-- Witness for C5: a shutdown followed by a clean guest exit produces one
Exiting event with `shutting_down` true in between. -/
theorem shutdown_then_exiting_once_witness :
    ∃ hA sh hB,
      ([⟨⟨.Detached, false, false⟩, .callShutdown,
          ⟨⟨.Detached, true, false⟩, Option.none, Option.none⟩⟩,
        ⟨⟨.Detached, true, false⟩, .guestExit true,
          ⟨⟨.Detached, true, true⟩, some (.Exiting true), Option.none⟩⟩] :
        List HistEntry) = hA ++ sh :: hB ∧
      sh.act = .callShutdown ∧
      (∀ x ∈ hB, x.pre.terminated = false → vmm_shutting_down x.pre = true) ∧
      vmm_shutting_down ⟨.Detached, true, true⟩ = false ∧
      (histEvents
        [⟨⟨.Detached, false, false⟩, .callShutdown,
          ⟨⟨.Detached, true, false⟩, Option.none, Option.none⟩⟩,
         ⟨⟨.Detached, true, false⟩, .guestExit true,
          ⟨⟨.Detached, true, true⟩, some (.Exiting true), Option.none⟩⟩]).countP
        VmmEvent.isExiting = 1 :=
  shutdown_then_exiting_once.2 ⟨true, true, true, true, Option.none⟩
    ⟨.Detached, false, false⟩ [] [.guestExit true] ⟨.Detached, true, true⟩
    [⟨⟨.Detached, false, false⟩, .callShutdown,
      ⟨⟨.Detached, true, false⟩, Option.none, Option.none⟩⟩,
     ⟨⟨.Detached, true, false⟩, .guestExit true,
      ⟨⟨.Detached, true, true⟩, some (.Exiting true), Option.none⟩⟩]
    rfl rfl rfl

end Core
